import Mathlib

/-
Shallow embedding of the power-diagram core of the `vonoi` repository:

  * `src/lib/poly_clip.ts` — Sutherland–Hodgman `clipPolygon`
    (namespace `PolyClip`);
  * the exported lifted-hull pipeline `computePowerDiagram`,
    `transformSiteToDualSpace`, `computeNormal`,
    `calculatePlaneCoefficients`, `delta`, `mapTo2D`
    (namespace `PD`);
  * the `WeightedVoronoi` class: `polygonClip`, `computePowerDiagram`,
    `IMAX`, `compute` (namespace `WV`).

JavaScript numbers are modelled as exact rationals.  The two places where
the code can produce a non-finite IEEE value from finite inputs —
`Math.sqrt` of a negative number, and division by a zero denominator —
are modelled by `Option`: `none` stands for the NaN / non-finite result.
The third-party 3-D convex hull (`quickhull3d`) is an external dependency
of the repository, so every pipeline definition takes the hull routine as
a parameter (a function from the lifted points to a list of faces, each a
list of vertex indices), exactly as the code treats it.
-/

/-- A 2-D point, as in `Point2D` of the source (`{x, y}` with number
coordinates, or the `[x, y]` pairs of the `WeightedVoronoi` file). -/
structure Point2 where
  x : ℚ
  y : ℚ
deriving DecidableEq, Repr

/-- A 3-D point, as in `Point3D` / `Vector3` of the source. -/
structure Point3 where
  x : ℚ
  y : ℚ
  z : ℚ
deriving DecidableEq, Repr

/-- A weighted site: `{x, y, weight}`. -/
structure Site where
  x : ℚ
  y : ℚ
  weight : ℚ
deriving DecidableEq, Repr

/-- Plane coefficients `{a, b, c, d}` as in the source's `Plane` type. -/
structure Plane where
  a : ℚ
  b : ℚ
  c : ℚ
  d : ℚ
deriving DecidableEq, Repr

namespace PolyClip

/-- The `inside` test of `clipPolygon` (poly_clip.ts line 7): the strict
cross-product test
`(edgeEnd.x - edgeStart.x) * (p.y - edgeStart.y) > (edgeEnd.y - edgeStart.y) * (p.x - edgeStart.x)`. -/
def inside (p edgeStart edgeEnd : Point2) : Bool :=
  decide ((edgeEnd.x - edgeStart.x) * (p.y - edgeStart.y) >
    (edgeEnd.y - edgeStart.y) * (p.x - edgeStart.x))

/-- `computeIntersection` of poly_clip.ts (lines 12–21), transcribed
verbatim: when `denom == 0` the code returns the sentinel `{x: 0, y: 0}`,
otherwise the point `start + t * (end - start)`. -/
def computeIntersection (s e edgeStart edgeEnd : Point2) : Point2 :=
  let dx := e.x - s.x
  let dy := e.y - s.y
  let edgeDx := edgeEnd.x - edgeStart.x
  let edgeDy := edgeEnd.y - edgeStart.y
  let denom := dx * edgeDy - dy * edgeDx
  if denom = 0 then ⟨0, 0⟩
  else
    let t := ((s.x - edgeStart.x) * edgeDy - (s.y - edgeStart.y) * edgeDx) / denom
    ⟨s.x + t * dx, s.y + t * dy⟩

/-- The denominator computed inside `computeIntersection` for the subject
segment `s → e` against the clip edge `edgeStart → edgeEnd`. -/
def denomOf (s e edgeStart edgeEnd : Point2) : ℚ :=
  (e.x - s.x) * (edgeEnd.y - edgeStart.y) - (e.y - s.y) * (edgeEnd.x - edgeStart.x)

/-- Inner loop of `clipPolygon` over one clip edge: `S` is the running
previous vertex, the list argument the remaining input vertices `E`.
Transcribes poly_clip.ts lines 33–43. -/
def clipEdgeGo (edgeStart edgeEnd : Point2) : Point2 → List Point2 → List Point2
  | _, [] => []
  | s, e :: rest =>
    (if inside e edgeStart edgeEnd then
      (if inside s edgeStart edgeEnd then [e]
       else [computeIntersection s e edgeStart edgeEnd, e])
     else if inside s edgeStart edgeEnd then
      [computeIntersection s e edgeStart edgeEnd]
     else []) ++ clipEdgeGo edgeStart edgeEnd e rest

/-- One pass of `clipPolygon` over a single clip edge.  `S` starts as the
last point of the input list (poly_clip.ts line 31); an empty input list
yields an empty output (the JS inner loop body never runs). -/
def clipEdge (edgeStart edgeEnd : Point2) (input : List Point2) : List Point2 :=
  match input.getLast? with
  | none => []
  | some s => clipEdgeGo edgeStart edgeEnd s input

/-- The clip edges enumerated by `clipPolygon`
(`boundary[i] → boundary[(i+1) % boundary.length]`, lines 24–26). -/
def edges (boundary : List Point2) : List (Point2 × Point2) :=
  (List.range boundary.length).map fun i =>
    (boundary.getD i ⟨0, 0⟩, boundary.getD ((i + 1) % boundary.length) ⟨0, 0⟩)

/-- `clipPolygon` of poly_clip.ts (lines 4–46): fold the per-edge pass over
all edges of the clipping boundary, starting from the subject polygon. -/
def clipPolygon (polygon boundary : List Point2) : List Point2 :=
  (edges boundary).foldl (fun out e => clipEdge e.1 e.2 out) polygon

/-- Intersection computation as the spec prescribes the parallel case
(§4.4: "denom == 0 … must be treated as no intersection (skip)"): `none`
when the denominator is zero, otherwise the same point
`computeIntersection` returns. -/
def computeIntersectionSkip (s e edgeStart edgeEnd : Point2) : Option Point2 :=
  let dx := e.x - s.x
  let dy := e.y - s.y
  let edgeDx := edgeEnd.x - edgeStart.x
  let edgeDy := edgeEnd.y - edgeStart.y
  let denom := dx * edgeDy - dy * edgeDx
  if denom = 0 then none
  else
    let t := ((s.x - edgeStart.x) * edgeDy - (s.y - edgeStart.y) * edgeDx) / denom
    some ⟨s.x + t * dx, s.y + t * dy⟩

/-- Inner clip loop with the spec's skip semantics: a parallel pair emits
no intersection point at all. -/
def clipEdgeGoSkip (edgeStart edgeEnd : Point2) : Point2 → List Point2 → List Point2
  | _, [] => []
  | s, e :: rest =>
    (if inside e edgeStart edgeEnd then
      (if inside s edgeStart edgeEnd then [e]
       else (computeIntersectionSkip s e edgeStart edgeEnd).toList ++ [e])
     else if inside s edgeStart edgeEnd then
      (computeIntersectionSkip s e edgeStart edgeEnd).toList
     else []) ++ clipEdgeGoSkip edgeStart edgeEnd e rest

/-- One clip pass with the spec's skip semantics. -/
def clipEdgeSkip (edgeStart edgeEnd : Point2) (input : List Point2) : List Point2 :=
  match input.getLast? with
  | none => []
  | some s => clipEdgeGoSkip edgeStart edgeEnd s input

/-- `clipPolygon` with the spec's skip semantics for parallel edges. -/
def clipPolygonSkip (polygon boundary : List Point2) : List Point2 :=
  (edges boundary).foldl (fun out e => clipEdgeSkip e.1 e.2 out) polygon

/-- Membership in (or on the boundary of) a convex clip polygon given in
counter-clockwise order: the point is on the inner closed half-plane of
every directed edge. -/
def insideOrOnBoundary (boundary : List Point2) (p : Point2) : Bool :=
  (edges boundary).all fun e =>
    decide (0 ≤ (e.2.x - e.1.x) * (p.y - e.1.y) - (e.2.y - e.1.y) * (p.x - e.1.x))

/-
Reference-level model of `clipPolygon`, for the frame property (the
function mutates neither of its argument arrays).  JS arrays are
references into a heap; the heap maps a reference (a `Nat`) to the
array's current contents.  `clipPolygon` allocates a fresh `[]` for
`outputList` on every pass and only ever `push`es into that fresh array;
the transcription below makes each of those heap effects explicit.
-/

/-- A heap of JS arrays of points: `arrs r` is the contents of the array
referenced by `r`; references `≥ next` are unallocated. -/
structure Heap where
  arrs : Nat → List Point2
  next : Nat

/-- Allocate a fresh array literal (the `outputList = []` of line 29),
returning the updated heap and the new reference. -/
def halloc (h : Heap) (xs : List Point2) : Heap × Nat :=
  (⟨fun r => if r = h.next then xs else h.arrs r, h.next + 1⟩, h.next)

/-- Read an array through its reference. -/
def hread (h : Heap) (r : Nat) : List Point2 :=
  h.arrs r

/-- `arr.push(p)` on the array referenced by `r`. -/
def hpush (h : Heap) (r : Nat) (p : Point2) : Heap :=
  ⟨fun r2 => if r2 = r then h.arrs r ++ [p] else h.arrs r2, h.next⟩

/-- Inner loop of `clipPolygon` in the heap model: identical control flow
to `clipEdgeGo`, but each emission is a `push` into the array referenced
by `outRef`. -/
def clipEdgeRefGo (edgeStart edgeEnd : Point2) (outRef : Nat) :
    Point2 → List Point2 → Heap → Heap
  | _, [], h => h
  | s, e :: rest, h =>
    let h1 :=
      if inside e edgeStart edgeEnd then
        (if inside s edgeStart edgeEnd then hpush h outRef e
         else hpush (hpush h outRef (computeIntersection s e edgeStart edgeEnd)) outRef e)
      else if inside s edgeStart edgeEnd then
        hpush h outRef (computeIntersection s e edgeStart edgeEnd)
      else h
    clipEdgeRefGo edgeStart edgeEnd outRef e rest h1

/-- One pass of `clipPolygon` in the heap model: `inputList` is the array
currently referenced by `inRef` (the `const inputList = outputList` of
line 28), a fresh empty array becomes the new `outputList`, and the loop
pushes into it.  Returns the heap and the new output reference. -/
def clipEdgeRef (edgeStart edgeEnd : Point2) (inRef : Nat) (h : Heap) : Heap × Nat :=
  let input := hread h inRef
  let a := halloc h []
  match input.getLast? with
  | none => a
  | some s => (clipEdgeRefGo edgeStart edgeEnd a.2 s input a.1, a.2)

/-- `clipPolygon` in the heap model: the subject polygon and the clipping
boundary are passed as array references; the boundary is only ever read
(the loop header of line 24), so it is read out once up front. -/
def clipPolygonRef (h : Heap) (polygonRef boundaryRef : Nat) : Heap × Nat :=
  let boundary := hread h boundaryRef
  (edges boundary).foldl (fun acc e => clipEdgeRef e.1 e.2 acc.2 acc.1) (h, polygonRef)

end PolyClip

namespace PD

/-- A lifted 3-D point whose `z`-coordinate may be NaN (`none`), as
produced by `transformSiteToDualSpace` when `Math.sqrt` is applied to a
negative weight. -/
structure Point3N where
  x : ℚ
  y : ℚ
  z : Option ℚ
deriving DecidableEq, Repr

/-- `transformSiteToDualSpace` (part_002 lines 35–43): the code sets
`r = Math.sqrt(weight)` and `z = x**2 + y**2 - r**2`.  Over the reals
`r**2 = weight` exactly when `0 ≤ weight`; when `weight < 0`, `Math.sqrt`
returns NaN, so `r**2` and hence `z` are NaN — modelled as `none`.
The `x` and `y` coordinates are copied through untouched. -/
def transformSiteToDualSpace (s : Site) : Point3N :=
  ⟨s.x, s.y, if 0 ≤ s.weight then some (s.x ^ 2 + s.y ^ 2 - s.weight) else none⟩

/-- The finite value of `transformSiteToDualSpace` — the lifted point in
the regime `0 ≤ weight` stipulated by the data model (where
`Math.sqrt(weight) ** 2 = weight` exactly over the reals).  The pipeline
model below is stated in this regime. -/
def transformSiteToDualSpaceFin (s : Site) : Point3 :=
  ⟨s.x, s.y, s.x ^ 2 + s.y ^ 2 - s.weight⟩

/-- `computeNormal` (part_002 lines 46–57): the cross product of
`p2 - p1` and `p3 - p1`, written with the source's component formulas. -/
def computeNormal (p1 p2 p3 : Point3) : Point3 :=
  let v1 := p2.x - p1.x
  let v2 := p2.y - p1.y
  let v3 := p2.z - p1.z
  let w1 := p3.x - p1.x
  let w2 := p3.y - p1.y
  let w3 := p3.z - p1.z
  ⟨v2 * w3 - v3 * w2, v3 * w1 - v1 * w3, v1 * w2 - v2 * w1⟩

/-- Componentwise difference of 3-D points (mathematical reference for
the claim that `computeNormal` is a cross product of differences). -/
def vsub (p q : Point3) : Point3 :=
  ⟨p.x - q.x, p.y - q.y, p.z - q.z⟩

/-- The 3-D cross product (mathematical reference definition). -/
def cross (u v : Point3) : Point3 :=
  ⟨u.y * v.z - u.z * v.y, u.z * v.x - u.x * v.z, u.x * v.y - u.y * v.x⟩

/-- `delta` (part_002 lines 27–33): plane-to-dual-point conversion. -/
def delta (p : Plane) : Point3 :=
  ⟨p.a / 2, p.b / 2, -p.c⟩

/-- `mapTo2D` (part_002 lines 72–77). -/
def mapTo2D (p : Point3) : Point2 :=
  ⟨p.x, p.y⟩

/-- `calculatePlaneCoefficients` (part_002 lines 144–158).  The code
divides `alpha`, `beta` and the determinant (its local `delta`) by
`gamma`; when `gamma == 0` the IEEE division yields non-finite
coefficients (±Infinity or NaN), modelled here by `none`.  Otherwise the
exact quotients of the source are returned (note the source assigns the
same value `delta / gamma` to both `c` and `d`). -/
def calculatePlaneCoefficients (P1 P2 P3 : Point3) : Option Plane :=
  let alpha := P1.y * (P2.z - P3.z) + P2.y * (P3.z - P1.z) + P3.y * (P1.z - P2.z)
  let beta := P1.z * (P2.x - P3.x) + P2.z * (P3.x - P1.x) + P3.z * (P1.x - P2.x)
  let gamma := P1.x * (P2.y - P3.y) + P2.x * (P3.y - P1.y) + P3.x * (P1.y - P2.y)
  let det := P1.x * (P2.y * P3.z - P3.y * P2.z) + P2.x * (P3.y * P1.z - P1.y * P3.z) +
    P3.x * (P1.y * P2.z - P2.y * P1.z)
  if gamma = 0 then none
  else some ⟨-alpha / gamma, -beta / gamma, det / gamma, det / gamma⟩

/-- A triangulated hull face, as the triple of its vertex points
(`quickhull3d` triangulates by default, so each face of part_002's
`hull_triangles` has exactly three vertices). -/
abbrev Face := Point3 × Point3 × Point3

/-- The `gamma` computed by `calculatePlaneCoefficients` for a face. -/
def gammaOf (f : Face) : ℚ :=
  f.1.x * (f.2.1.y - f.2.2.y) + f.2.1.x * (f.2.2.y - f.1.y) + f.2.2.x * (f.1.y - f.2.1.y)

/-- `hull.map(f => f.map(i => dualPoints[i]))` (part_002 line 114): turn
the hull's index triples into point triples.  Real hull output only holds
indices into `dualPoints`; an out-of-range index (which would make the JS
crash later) is mapped to the origin. -/
def hullTriangles (hull : List (ℕ × ℕ × ℕ)) (dualPoints : List Point3) : List Face :=
  hull.map fun t =>
    (dualPoints.getD t.1 ⟨0, 0, 0⟩, dualPoints.getD t.2.1 ⟨0, 0, 0⟩,
      dualPoints.getD t.2.2 ⟨0, 0, 0⟩)

/-- The lower-envelope filter (part_002 line 115): keep the faces whose
`computeNormal` has strictly negative `z`-component. -/
def lowerFaces (hullTris : List Face) : List Face :=
  hullTris.filter fun f => decide ((computeNormal f.1 f.2.1 f.2.2).z < 0)

/-- The site-matching test of part_002 line 118:
`f.some(p => p.x === site.x && p.y === site.y)`. -/
def faceMatches (site : Site) (f : Face) : Bool :=
  decide ((f.1.x = site.x ∧ f.1.y = site.y) ∨ (f.2.1.x = site.x ∧ f.2.1.y = site.y) ∨
    (f.2.2.x = site.x ∧ f.2.2.y = site.y))

/-- The cell vertex contributed by one face (part_002 lines 119–120):
`mapTo2D(delta(calculatePlaneCoefficients(p1, p2, p3)))`; `none` is the
non-finite vertex that a zero `gamma` would produce. -/
def faceVertex (f : Face) : Option Point2 :=
  (calculatePlaneCoefficients f.1 f.2.1 f.2.2).map fun pl => mapTo2D (delta pl)

/-- The polygon recovered for one site (part_002 lines 118–120): the
vertices of all retained faces that match the site. -/
def siteCell (lower : List Face) (site : Site) : List (Option Point2) :=
  (lower.filter (faceMatches site)).map faceVertex

/-- The lifted points `dualPoints` of part_002 line 112, in the finite
(`0 ≤ weight`) regime. -/
def dualPoints (sites : List Site) : List Point3 :=
  sites.map transformSiteToDualSpaceFin

/-- The retained lower-envelope faces for a given external hull routine
`qhFaces` and site list (part_002 lines 112–115). -/
def lowerEnvelope (qhFaces : List Point3 → List (ℕ × ℕ × ℕ)) (sites : List Site) :
    List Face :=
  lowerFaces (hullTriangles (qhFaces (dualPoints sites)) (dualPoints sites))

/-- `computePowerDiagram` (part_002 lines 111–128), with the external
`quickhull3d` routine as the parameter `qhFaces`: lift the sites, take
the hull, keep the lower faces, then loop over the sites pushing one cell
each (`cells.push(points)`). -/
def computePowerDiagram (qhFaces : List Point3 → List (ℕ × ℕ × ℕ)) (sites : List Site) :
    List (List (Option Point2)) :=
  sites.foldl (fun cells site => cells ++ [siteCell (lowerEnvelope qhFaces sites) site]) []

end PD

namespace WV

/-- `polygonInside` (part_001 lines 50–52): the strict cross-product test
`(b[0] - a[0]) * (p[1] - a[1]) < (b[1] - a[1]) * (p[0] - a[0])`. -/
def polygonInside (p a b : Point2) : Bool :=
  decide ((b.x - a.x) * (p.y - a.y) < (b.y - a.y) * (p.x - a.x))

/-- `polygonIntersect` (part_001 lines 54–65).  When the denominator
`y43 * x21 - x43 * y21` is zero, `ua` and hence both coordinates are
non-finite, which the caller's `isFinite` guard rejects — modelled as
`none`; otherwise the exact point. -/
def polygonIntersect (c d a b : Point2) : Option Point2 :=
  let x21 := d.x - c.x
  let x43 := b.x - a.x
  let y21 := d.y - c.y
  let y43 := b.y - a.y
  let den := y43 * x21 - x43 * y21
  if den = 0 then none
  else
    let ua := (x43 * (c.y - a.y) - y43 * (c.x - a.x)) / den
    some ⟨c.x + ua * x21, c.y + ua * y21⟩

/-- `polygonClosed` (part_001 lines 67–71): the first and last vertex
coincide componentwise.  (On an empty array the JS would fault reading
`undefined[0]`; that case is unreachable from the uses modelled here.) -/
def polygonClosed (coordinates : List Point2) : Bool :=
  decide (coordinates.headD ⟨0, 0⟩ = coordinates.getLastD ⟨0, 0⟩)

/-- Inner loop of `polygonClip` (part_001 lines 25–42): `c` is the running
previous vertex, the list the remaining `d` vertices; an intersection is
pushed only when `isFinite(intersection[0])` holds (`Option.toList`). -/
def polygonClipGo (a b : Point2) : Point2 → List Point2 → List Point2
  | _, [] => []
  | c, d :: rest =>
    (if polygonInside d a b then
      (if polygonInside c a b then [d]
       else (polygonIntersect c d a b).toList ++ [d])
     else if polygonInside c a b then
      (polygonIntersect c d a b).toList
     else []) ++ polygonClipGo a b d rest

/-- One pass of `polygonClip` over the clip edge `a → b`: the inner loop
runs over `input[0..m)` with `m = input.length - (closed ? 1 : 0)` and
`c` initialised to `input[m - 1]`; if the subject was closed, the new
subject's first vertex is appended again afterwards (part_001 line 43).
(When the pass output is empty the JS would push `undefined`; modelled as
re-appending nothing.) -/
def polygonClipPass (closed : Bool) (a b : Point2) (input : List Point2) : List Point2 :=
  let m := input.length - (if closed then 1 else 0)
  let trimmed := input.take m
  let out :=
    match trimmed.getLast? with
    | none => []
    | some c => polygonClipGo a b c trimmed
  if closed then
    match out.head? with
    | none => out
    | some p => out ++ [p]
  else out

/-- `polygonClip` (part_001 lines 6–48): fold the per-edge pass over the
clip polygon's first `n` vertices, where `n` drops a duplicated closing
vertex, with `a` running behind `b` starting from `clip[n - 1]`. -/
def polygonClip (clip subject : List Point2) : List Point2 :=
  let closed := polygonClosed subject
  let n := clip.length - (if polygonClosed clip then 1 else 0)
  let a0 := clip.getD (n - 1) ⟨0, 0⟩
  ((List.range n).foldl
    (fun (st : Point2 × List Point2) i =>
      (clip.getD i ⟨0, 0⟩, polygonClipPass closed st.1 (clip.getD i ⟨0, 0⟩) st.2))
    (a0, subject)).2

/-- `WeightedVoronoi.computePowerDiagram` (part_001 lines 116–136), with
the external `quickhull3d` routine as the parameter `qhFaces`: fewer than
4 sites short-circuits to an empty diagram; otherwise the sites are
lifted with `z = x² + y² - weight`, and every hull face is projected to
2-D and clipped against `omega`. -/
def computePowerDiagram (qhFaces : List Point3 → List (List ℕ))
    (sites : List Site) (omega : List Point2) : List (List Point2) :=
  if sites.length < 4 then []
  else
    let transformedSites := sites.map fun s =>
      (⟨s.x, s.y, s.x ^ 2 + s.y ^ 2 - s.weight⟩ : Point3)
    let convexHull := qhFaces transformedSites
    convexHull.map fun face =>
      let vertices := face.map fun idx => transformedSites.getD idx ⟨0, 0, 0⟩
      let lowerEnvelopeFace := vertices.map fun v => (⟨v.x, v.y⟩ : Point2)
      polygonClip lowerEnvelopeFace omega

/-- `IMAX` (part_001 line 76): the iteration cap of the relaxation loop. -/
def IMAX : ℕ := 50

/-- The constructor default for `ethreshold` (part_001 line 83). -/
def defaultEthreshold : ℚ := 1 / 1000

/-- One pass of `WeightedVoronoi.compute`'s loop body maps the previous
diagram to the next diagram and that iteration's total error:
`adaptedSites = adaptPositionsAndWeights(this.sites, diagram)`,
`diagram = computePowerDiagram(adaptedSites, omega)`,
`error = calculateTotalError(adaptedSites, diagram)`.  Those three bodies
involve `Math.random` state, `Math.PI`, square roots and the external
hull, so the loop is modelled over an arbitrary such step function; the
claim about `compute` is purely about its control flow.  `computeLoop`
transcribes the `for (i = 0; i < IMAX; i++) { …; if (error < ethreshold)
break }` loop with the remaining iteration budget as fuel, returning the
final diagram and the number of loop-body executions. -/
def computeLoop (step : List (List Point2) → List (List Point2) × ℚ) (ethreshold : ℚ) :
    ℕ → List (List Point2) → List (List Point2) × ℕ
  | 0, diagram => (diagram, 0)
  | k + 1, diagram =>
    let r := step diagram
    if r.2 < ethreshold then (r.1, 1)
    else
      let rest := computeLoop step ethreshold k r.1
      (rest.1, rest.2 + 1)

/-- `WeightedVoronoi.compute` (part_001 lines 89–104): run the loop body
at most `IMAX` times starting from the initial diagram, stopping early as
soon as an iteration's error drops below `ethreshold`. -/
def compute (step : List (List Point2) → List (List Point2) × ℚ) (ethreshold : ℚ)
    (init : List (List Point2)) : List (List Point2) × ℕ :=
  computeLoop step ethreshold IMAX init

/-- The diagram after `k` executions of the loop body. -/
def diagSeq (step : List (List Point2) → List (List Point2) × ℚ)
    (init : List (List Point2)) : ℕ → List (List Point2)
  | 0 => init
  | k + 1 => (step (diagSeq step init k)).1

/-- The total error computed by the `k`-th (0-indexed) execution of the
loop body. -/
def errAt (step : List (List Point2) → List (List Point2) × ℚ)
    (init : List (List Point2)) (k : ℕ) : ℚ :=
  (step (diagSeq step init k)).2

end WV

/-
Helper lemmas shared by several claim theorems.
-/

/-- Indexing a mapped list below its length pushes the function through
`getD`, for any defaults. -/
theorem getD_map_of_lt {α β : Type} (f : α → β) (l : List α) (i : ℕ) (h : i < l.length)
    (d : β) (d0 : α) : (l.map f).getD i d = f (l.getD i d0) := by
  rw [List.getD_eq_getElem?_getD, List.getD_eq_getElem?_getD, List.getElem?_map,
    List.getElem?_eq_getElem h]
  simp

/-- The `cells.push(points)` loop of part_002 is a `map` over the sites. -/
theorem foldl_push_eq_map {α β : Type} (f : α → β) (l : List α) (acc : List β) :
    l.foldl (fun cells x => cells ++ [f x]) acc = acc ++ l.map f := by
  induction l generalizing acc with
  | nil => simp
  | cons x xs ih => simp [ih]

/-- `computePowerDiagram` of part_002 emits exactly the per-site cells, in
site order. -/
theorem computePowerDiagram_eq_map (qhFaces : List Point3 → List (ℕ × ℕ × ℕ))
    (sites : List Site) :
    PD.computePowerDiagram qhFaces sites =
      sites.map (PD.siteCell (PD.lowerEnvelope qhFaces sites)) := by
  simpa using foldl_push_eq_map (PD.siteCell (PD.lowerEnvelope qhFaces sites)) sites []

/-- The `gamma` of `calculatePlaneCoefficients` is exactly the
`z`-component of the face normal computed by `computeNormal`. -/
theorem gammaOf_eq_normal_z (f : PD.Face) :
    PD.gammaOf f = (PD.computeNormal f.1 f.2.1 f.2.2).z := by
  simp only [PD.gammaOf, PD.computeNormal]
  ring

/-- A face whose `gamma` is nonzero gets finite plane coefficients. -/
theorem calculatePlaneCoefficients_isSome (f : PD.Face) (h : PD.gammaOf f ≠ 0) :
    ∃ pl, PD.calculatePlaneCoefficients f.1 f.2.1 f.2.2 = some pl := by
  simp only [PD.gammaOf] at h
  simp only [PD.calculatePlaneCoefficients]
  rw [if_neg h]
  exact ⟨_, rfl⟩

/-- C9: calling `clipPolygon` with an empty clipping boundary returns the
subject polygon unchanged: there are no clip edges, so the fold over the
boundary never runs and the output is the very vertex sequence passed in. -/
theorem clipPolygon_empty_boundary (polygon : List Point2) :
    PolyClip.clipPolygon polygon [] = polygon := rfl

/-- C6 (code bug): clipping the subject triangle
`[(5,-5), (5,5), (9,5)]` against the counter-clockwise convex square
`[(0,0), (10,0), (10,10), (0,10)]` emits the vertex `(5,-10)`, which lies
strictly outside the clip polygon — the sign error in
`computeIntersection`'s line parameter `t` sends boundary crossings to
the wrong side of the clip edge, so the claimed containment property
fails on the code. -/
theorem clipPolygon_emits_vertex_outside_clip :
    (⟨5, -10⟩ : Point2) ∈
      PolyClip.clipPolygon [⟨5, -5⟩, ⟨5, 5⟩, ⟨9, 5⟩]
        [⟨0, 0⟩, ⟨10, 0⟩, ⟨10, 10⟩, ⟨0, 10⟩] ∧
    PolyClip.insideOrOnBoundary [⟨0, 0⟩, ⟨10, 0⟩, ⟨10, 10⟩, ⟨0, 10⟩] ⟨5, -10⟩ = false := by
  constructor
  · have h : PolyClip.clipPolygon [⟨5, -5⟩, ⟨5, 5⟩, ⟨9, 5⟩]
        [⟨0, 0⟩, ⟨10, 0⟩, ⟨10, 10⟩, ⟨0, 10⟩] =
        [⟨8, 5 / 2⟩, ⟨68 / 13, -5⟩, ⟨13, 50 / 3⟩, ⟨5, -10⟩, ⟨5, 5⟩, ⟨9, 5⟩] := by
      norm_num [PolyClip.clipPolygon, PolyClip.edges, PolyClip.clipEdge, PolyClip.clipEdgeGo,
        PolyClip.inside, PolyClip.computeIntersection, List.range_succ]
    rw [h]
    simp
  · norm_num [PolyClip.insideOrOnBoundary, PolyClip.edges, List.range_succ]

/-- C1 (counterexample): at the site `(0, 0)` with weight `-1`, the code's
`Math.sqrt(weight)` is NaN, so the lifted `z`-coordinate is NaN (`none`)
— not the well-defined finite number `x² + y² - weight = 1` the claim
asserts. -/
theorem transformSiteToDualSpace_negative_weight_nan :
    (PD.transformSiteToDualSpace ⟨0, 0, -1⟩).z = none ∧
    (PD.transformSiteToDualSpace ⟨0, 0, -1⟩).z ≠ some ((0 : ℚ) ^ 2 + 0 ^ 2 - (-1)) := by
  have h : (PD.transformSiteToDualSpace ⟨0, 0, -1⟩).z = none := by
    have hlt : ¬(0 : ℚ) ≤ -1 := by norm_num
    show (if (0 : ℚ) ≤ -1 then some ((0 : ℚ) ^ 2 + 0 ^ 2 - (-1)) else none) = none
    rw [if_neg hlt]
  exact ⟨h, by rw [h]; exact fun hc => Option.noConfusion hc⟩

/-- C1 (amended): the lifting step maps the site list to a point list of
equal length and order, always preserving each site's `x` and `y`
exactly; for a site with nonnegative weight the lifted `z` is exactly
`x² + y² - weight`, while for a negative weight `Math.sqrt` makes the
lifted `z` NaN (`none`) rather than a finite number. -/
theorem transformSiteToDualSpace_spec (sites : List Site) :
    (sites.map PD.transformSiteToDualSpace).length = sites.length ∧
    (∀ i, i < sites.length →
      ((sites.map PD.transformSiteToDualSpace).getD i ⟨0, 0, none⟩).x =
        (sites.getD i ⟨0, 0, 0⟩).x ∧
      ((sites.map PD.transformSiteToDualSpace).getD i ⟨0, 0, none⟩).y =
        (sites.getD i ⟨0, 0, 0⟩).y ∧
      (0 ≤ (sites.getD i ⟨0, 0, 0⟩).weight →
        ((sites.map PD.transformSiteToDualSpace).getD i ⟨0, 0, none⟩).z =
          some ((sites.getD i ⟨0, 0, 0⟩).x ^ 2 + (sites.getD i ⟨0, 0, 0⟩).y ^ 2 -
            (sites.getD i ⟨0, 0, 0⟩).weight)) ∧
      ((sites.getD i ⟨0, 0, 0⟩).weight < 0 →
        ((sites.map PD.transformSiteToDualSpace).getD i ⟨0, 0, none⟩).z = none)) := by
  refine ⟨by simp, fun i hi => ?_⟩
  rw [getD_map_of_lt PD.transformSiteToDualSpace sites i hi ⟨0, 0, none⟩ ⟨0, 0, 0⟩]
  have hz : ∀ s : Site, (PD.transformSiteToDualSpace s).z =
      if 0 ≤ s.weight then some (s.x ^ 2 + s.y ^ 2 - s.weight) else none := fun _ => rfl
  refine ⟨rfl, rfl, fun hw => ?_, fun hw => ?_⟩
  · rw [hz, if_pos hw]
  · rw [hz, if_neg (not_le.mpr hw)]

/-- Witness for C1's amended theorem at the concrete site `(1, 2)` with
weight `3`: the lifted `z` is `1 + 4 - 3 = 2`. -/
theorem transformSiteToDualSpace_spec_witness :
    ((([⟨1, 2, 3⟩] : List Site).map PD.transformSiteToDualSpace).getD 0 ⟨0, 0, none⟩).z =
      some 2 := by
  have h := ((transformSiteToDualSpace_spec [⟨1, 2, 3⟩]).2 0 (by decide)).2.2.1 (by norm_num)
  rw [h]
  norm_num

/-- C2: lower-envelope extraction computes each face's normal as the cross
product of `p2 - p1` and `p3 - p1` over the face's first three vertices,
and a face is retained exactly when it is a hull face whose normal has
strictly negative `z`-component; a face with `normal.z = 0` is excluded. -/
theorem lowerFaces_mem_iff (T : List PD.Face) (f : PD.Face) :
    PD.computeNormal f.1 f.2.1 f.2.2 = PD.cross (PD.vsub f.2.1 f.1) (PD.vsub f.2.2 f.1) ∧
    (f ∈ PD.lowerFaces T ↔ f ∈ T ∧ (PD.computeNormal f.1 f.2.1 f.2.2).z < 0) ∧
    ((PD.computeNormal f.1 f.2.1 f.2.2).z = 0 → f ∉ PD.lowerFaces T) := by
  have hmem : f ∈ PD.lowerFaces T ↔ f ∈ T ∧ (PD.computeNormal f.1 f.2.1 f.2.2).z < 0 := by
    simp [PD.lowerFaces, List.mem_filter]
  refine ⟨rfl, hmem, fun hz hf => ?_⟩
  have := (hmem.mp hf).2
  rw [hz] at this
  exact absurd this (lt_irrefl 0)

/-- Witness for C2 at a concrete horizontal-normal face: its normal has
`z = 0`, so it is excluded from the lower envelope. -/
theorem lowerFaces_mem_iff_witness :
    ((⟨0, 0, 0⟩, ⟨1, 0, 0⟩, ⟨2, 0, 5⟩) : PD.Face) ∉
      PD.lowerFaces [(⟨0, 0, 0⟩, ⟨1, 0, 0⟩, ⟨2, 0, 5⟩)] :=
  (lowerFaces_mem_iff [(⟨0, 0, 0⟩, ⟨1, 0, 0⟩, ⟨2, 0, 5⟩)]
    (⟨0, 0, 0⟩, ⟨1, 0, 0⟩, ⟨2, 0, 5⟩)).2.2 (by norm_num [PD.computeNormal])

/-- C4: the `WeightedVoronoi` diagram computation called with fewer than 4
sites returns an empty diagram (no hull is computed, nothing is thrown). -/
theorem wv_computePowerDiagram_small_input (qhFaces : List Point3 → List (List ℕ))
    (sites : List Site) (omega : List Point2) (h : sites.length < 4) :
    WV.computePowerDiagram qhFaces sites omega = [] := by
  unfold WV.computePowerDiagram
  rw [if_pos h]

/-- Witness for C4 at a concrete 3-site input. -/
theorem wv_computePowerDiagram_small_input_witness :
    WV.computePowerDiagram (fun _ => []) [⟨0, 0, 1⟩, ⟨10, 0, 1⟩, ⟨0, 10, 1⟩] [] = [] :=
  wv_computePowerDiagram_small_input (fun _ => []) [⟨0, 0, 1⟩, ⟨10, 0, 1⟩, ⟨0, 10, 1⟩] []
    (by decide)

/-- C3: for at least 4 sites, `computePowerDiagram` returns exactly one
cell per input site, in input order (`cells[i]` is the cell recovered for
`sites[i]`), and a site whose `(x, y)` matches no retained lower-envelope
face still gets a cell, with an empty polygon. -/
theorem computePowerDiagram_one_cell_per_site (qhFaces : List Point3 → List (ℕ × ℕ × ℕ))
    (sites : List Site) (h4 : 4 ≤ sites.length) :
    (PD.computePowerDiagram qhFaces sites).length = sites.length ∧
    (∀ i, i < sites.length → (PD.computePowerDiagram qhFaces sites).getD i [] =
      PD.siteCell (PD.lowerEnvelope qhFaces sites) (sites.getD i ⟨0, 0, 0⟩)) ∧
    (∀ i, i < sites.length →
      (∀ f ∈ PD.lowerEnvelope qhFaces sites,
        PD.faceMatches (sites.getD i ⟨0, 0, 0⟩) f = false) →
      (PD.computePowerDiagram qhFaces sites).getD i [] = []) := by
  have hmap := computePowerDiagram_eq_map qhFaces sites
  refine ⟨by rw [hmap]; simp,
    fun i hi => by rw [hmap, getD_map_of_lt _ _ _ hi [] ⟨0, 0, 0⟩],
    fun i hi hnone => ?_⟩
  rw [hmap, getD_map_of_lt _ _ _ hi [] ⟨0, 0, 0⟩]
  unfold PD.siteCell
  have hfil : (PD.lowerEnvelope qhFaces sites).filter
      (PD.faceMatches (sites.getD i ⟨0, 0, 0⟩)) = [] := by
    refine List.filter_eq_nil_iff.mpr fun f hf => ?_
    rw [hnone f hf]
    exact Bool.false_ne_true
  rw [hfil]
  rfl

/-- Witness for C3 at four concrete sites and a one-face hull. -/
theorem computePowerDiagram_one_cell_per_site_witness :
    (PD.computePowerDiagram (fun _ => [(0, 2, 1)])
      [⟨0, 0, 0⟩, ⟨1, 0, 0⟩, ⟨0, 1, 0⟩, ⟨1, 1, 0⟩]).length = 4 :=
  ((computePowerDiagram_one_cell_per_site (fun _ => [(0, 2, 1)])
    [⟨0, 0, 0⟩, ⟨1, 0, 0⟩, ⟨0, 1, 0⟩, ⟨1, 1, 0⟩] (by decide)).1).trans rfl

/-- C5: a face whose `gamma` is zero is never among the retained
lower-envelope faces (its normal's `z`-component is that very `gamma`,
and retention requires it to be strictly negative), so every division in
`calculatePlaneCoefficients` that reaches a cell has a nonzero
denominator and `computePowerDiagram` never emits a cell vertex with a
non-finite coordinate (`none`).  The weight hypothesis marks the regime
(`weight ≥ 0`, as the data model stipulates) in which the exact-rational
lift model is faithful to the code's `Math.sqrt`. -/
theorem computePowerDiagram_no_nonfinite_vertex (qhFaces : List Point3 → List (ℕ × ℕ × ℕ))
    (sites : List Site) (hw : ∀ s ∈ sites, 0 ≤ s.weight) :
    (∀ f ∈ PD.hullTriangles (qhFaces (PD.dualPoints sites)) (PD.dualPoints sites),
      PD.gammaOf f = 0 → f ∉ PD.lowerEnvelope qhFaces sites) ∧
    (∀ cell ∈ PD.computePowerDiagram qhFaces sites, ∀ v ∈ cell, v ≠ none) := by
  constructor
  · intro f _ h0 hmem
    have hlt : (PD.computeNormal f.1 f.2.1 f.2.2).z < 0 := by
      simp only [PD.lowerEnvelope, PD.lowerFaces, List.mem_filter,
        decide_eq_true_eq] at hmem
      exact hmem.2
    rw [gammaOf_eq_normal_z] at h0
    rw [h0] at hlt
    exact absurd hlt (lt_irrefl 0)
  · intro cell hcell v hv
    rw [computePowerDiagram_eq_map] at hcell
    obtain ⟨site, _, rfl⟩ := List.mem_map.mp hcell
    unfold PD.siteCell at hv
    obtain ⟨f, hf, rfl⟩ := List.mem_map.mp hv
    have hfl : f ∈ PD.lowerEnvelope qhFaces sites := List.mem_of_mem_filter hf
    have hz : (PD.computeNormal f.1 f.2.1 f.2.2).z < 0 := by
      simp only [PD.lowerEnvelope, PD.lowerFaces, List.mem_filter,
        decide_eq_true_eq] at hfl
      exact hfl.2
    have hg : PD.gammaOf f ≠ 0 := by
      rw [gammaOf_eq_normal_z]
      exact ne_of_lt hz
    obtain ⟨pl, hpl⟩ := calculatePlaneCoefficients_isSome f hg
    unfold PD.faceVertex
    rw [hpl]
    exact fun hc => Option.noConfusion hc

/-- Witness for C5: at four concrete nonnegative-weight sites with a
one-face hull, the first cell's vertex is finite. -/
theorem computePowerDiagram_no_nonfinite_vertex_witness :
    ((PD.computePowerDiagram (fun _ => [(0, 2, 1)])
      [⟨0, 0, 0⟩, ⟨1, 0, 0⟩, ⟨0, 1, 0⟩, ⟨1, 1, 0⟩]).getD 0 []).getD 0 none ≠ none := by
  have heq : PD.computePowerDiagram (fun _ => [(0, 2, 1)])
      [⟨0, 0, 0⟩, ⟨1, 0, 0⟩, ⟨0, 1, 0⟩, ⟨1, 1, 0⟩] =
      [[some ⟨1 / 2, 1 / 2⟩], [some ⟨1 / 2, 1 / 2⟩], [some ⟨1 / 2, 1 / 2⟩], []] := by
    norm_num [PD.computePowerDiagram, PD.siteCell, PD.lowerEnvelope, PD.lowerFaces,
      PD.hullTriangles, PD.dualPoints, PD.transformSiteToDualSpaceFin, PD.computeNormal,
      PD.faceMatches, PD.faceVertex, PD.calculatePlaneCoefficients, PD.delta, PD.mapTo2D]
  have hw4 : ∀ s ∈ ([⟨0, 0, 0⟩, ⟨1, 0, 0⟩, ⟨0, 1, 0⟩, ⟨1, 1, 0⟩] : List Site),
      0 ≤ s.weight := by
    intro s hs
    simp only [List.mem_cons, List.not_mem_nil, or_false] at hs
    rcases hs with h | h | h | h <;> subst h <;> norm_num
  exact (computePowerDiagram_no_nonfinite_vertex (fun _ => [(0, 2, 1)])
      [⟨0, 0, 0⟩, ⟨1, 0, 0⟩, ⟨0, 1, 0⟩, ⟨1, 1, 0⟩] hw4).2
    ((PD.computePowerDiagram (fun _ => [(0, 2, 1)])
      [⟨0, 0, 0⟩, ⟨1, 0, 0⟩, ⟨0, 1, 0⟩, ⟨1, 1, 0⟩]).getD 0 [])
    (by rw [heq]; simp)
    (((PD.computePowerDiagram (fun _ => [(0, 2, 1)])
      [⟨0, 0, 0⟩, ⟨1, 0, 0⟩, ⟨0, 1, 0⟩, ⟨1, 1, 0⟩]).getD 0 []).getD 0 none)
    (by rw [heq]; simp)

/-- If the denominator of `computeIntersection` vanishes, the subject
segment `s → e` is parallel to the clip edge, and then `s` and `e` lie on
the same side of the edge: the `inside` test cannot distinguish them. -/
theorem inside_eq_of_denom_zero (s e a b : Point2)
    (h : PolyClip.denomOf s e a b = 0) :
    PolyClip.inside e a b = PolyClip.inside s a b := by
  have key : (b.x - a.x) * (e.y - a.y) - (b.y - a.y) * (e.x - a.x) =
      (b.x - a.x) * (s.y - a.y) - (b.y - a.y) * (s.x - a.x) := by
    have h0 : (e.x - s.x) * (b.y - a.y) - (e.y - s.y) * (b.x - a.x) = 0 := h
    linear_combination -h0
  simp only [PolyClip.inside]
  apply decide_eq_decide.mpr
  constructor <;> intro hgt <;> nlinarith [key]

/-- Whenever the denominator is nonzero, the skip-style intersection is
exactly `computeIntersection`'s point. -/
theorem computeIntersectionSkip_of_denom_ne (s e a b : Point2)
    (h : PolyClip.denomOf s e a b ≠ 0) :
    PolyClip.computeIntersectionSkip s e a b = some (PolyClip.computeIntersection s e a b) := by
  simp only [PolyClip.denomOf] at h
  simp only [PolyClip.computeIntersectionSkip, PolyClip.computeIntersection]
  rw [if_neg h, if_neg h]

/-- The inner clip loop agrees with the skip-semantics inner loop: the
parallel branch of `computeIntersection` is unreachable, because an
intersection is only computed when `S` and `E` sit on different sides of
the clip edge. -/
theorem clipEdgeGo_eq_skip (a b : Point2) (l : List Point2) (s : Point2) :
    PolyClip.clipEdgeGo a b s l = PolyClip.clipEdgeGoSkip a b s l := by
  induction l generalizing s with
  | nil => rfl
  | cons e rest ih =>
    simp only [PolyClip.clipEdgeGo, PolyClip.clipEdgeGoSkip, ih]
    congr 1
    cases hE : PolyClip.inside e a b <;> cases hS : PolyClip.inside s a b <;>
      simp [hE, hS]
    · have hd : PolyClip.denomOf s e a b ≠ 0 := fun h0 => by
        have heq := inside_eq_of_denom_zero s e a b h0
        rw [hE, hS] at heq
        simp at heq
      rw [computeIntersectionSkip_of_denom_ne s e a b hd]
      rfl
    · have hd : PolyClip.denomOf s e a b ≠ 0 := fun h0 => by
        have heq := inside_eq_of_denom_zero s e a b h0
        rw [hE, hS] at heq
        simp at heq
      rw [computeIntersectionSkip_of_denom_ne s e a b hd]
      rfl

/-- C7: `clipPolygon` computes exactly what the skip semantics computes —
when a subject edge and a clip edge are parallel (`denom == 0` in
`computeIntersection`), the pair contributes no intersection point to the
output (the branch that would push the division-by-zero sentinel is
unreachable); and the `WeightedVoronoi` variant's `polygonIntersect`
returns a non-finite point (`none`) on a zero denominator, which its
caller's `isFinite` guard skips. -/
theorem clipPolygon_parallel_skip :
    (∀ polygon boundary : List Point2,
      PolyClip.clipPolygon polygon boundary = PolyClip.clipPolygonSkip polygon boundary) ∧
    (∀ c d a b : Point2,
      (b.y - a.y) * (d.x - c.x) - (b.x - a.x) * (d.y - c.y) = 0 →
      WV.polygonIntersect c d a b = none) := by
  constructor
  · intro polygon boundary
    have h : ∀ es ee : Point2, ∀ input : List Point2,
        PolyClip.clipEdge es ee input = PolyClip.clipEdgeSkip es ee input := by
      intro es ee input
      unfold PolyClip.clipEdge PolyClip.clipEdgeSkip
      cases input.getLast? with
      | none => rfl
      | some s => exact clipEdgeGo_eq_skip es ee input s
    unfold PolyClip.clipPolygon PolyClip.clipPolygonSkip
    have hfun : (fun (out : List Point2) (e : Point2 × Point2) => PolyClip.clipEdge e.1 e.2 out) =
        fun out e => PolyClip.clipEdgeSkip e.1 e.2 out := by
      funext out e
      exact h e.1 e.2 out
    rw [hfun]
  · intro c d a b h0
    simp only [WV.polygonIntersect]
    rw [if_pos h0]

/-- Witness for C7 at a concrete parallel pair: a degenerate
zero-denominator configuration yields no intersection point. -/
theorem clipPolygon_parallel_skip_witness :
    WV.polygonIntersect ⟨0, 0⟩ ⟨1, 0⟩ ⟨2, 1⟩ ⟨3, 1⟩ = none :=
  clipPolygon_parallel_skip.2 ⟨0, 0⟩ ⟨1, 0⟩ ⟨2, 1⟩ ⟨3, 1⟩ (by norm_num)

/-- Reading any other reference is unaffected by a push. -/
theorem hread_hpush_ne (h : PolyClip.Heap) (r r2 : ℕ) (p : Point2) (hne : r2 ≠ r) :
    PolyClip.hread (PolyClip.hpush h r p) r2 = PolyClip.hread h r2 := by
  simp [PolyClip.hread, PolyClip.hpush, if_neg hne]

/-- A push appends to the pushed reference. -/
theorem hread_hpush_self (h : PolyClip.Heap) (r : ℕ) (p : Point2) :
    PolyClip.hread (PolyClip.hpush h r p) r = PolyClip.hread h r ++ [p] := by
  simp [PolyClip.hread, PolyClip.hpush]

/-- A push does not allocate. -/
theorem hpush_next (h : PolyClip.Heap) (r : ℕ) (p : Point2) :
    (PolyClip.hpush h r p).next = h.next := rfl

/-- The inner heap loop touches only the output array: every other
reference reads the same before and after, and nothing is allocated. -/
theorem clipEdgeRefGo_frame (a b : Point2) (outRef : ℕ) (l : List Point2) :
    ∀ (s : Point2) (h : PolyClip.Heap) (r : ℕ), r ≠ outRef →
      PolyClip.hread (PolyClip.clipEdgeRefGo a b outRef s l h) r = PolyClip.hread h r := by
  induction l with
  | nil => intro s h r _; rfl
  | cons e rest ih =>
    intro s h r hr
    simp only [PolyClip.clipEdgeRefGo]
    rw [ih e _ r hr]
    cases PolyClip.inside e a b <;> cases PolyClip.inside s a b <;>
      simp [hread_hpush_ne _ _ _ _ hr]

/-- The inner heap loop does not allocate. -/
theorem clipEdgeRefGo_next (a b : Point2) (outRef : ℕ) (l : List Point2) :
    ∀ (s : Point2) (h : PolyClip.Heap),
      (PolyClip.clipEdgeRefGo a b outRef s l h).next = h.next := by
  induction l with
  | nil => intro s h; rfl
  | cons e rest ih =>
    intro s h
    simp only [PolyClip.clipEdgeRefGo]
    rw [ih]
    cases PolyClip.inside e a b <;> cases PolyClip.inside s a b <;> simp [hpush_next]

/-- One heap pass only writes to the freshly allocated output array:
all previously allocated references are unchanged, the heap grows by one
allocation, and the returned reference is the fresh one. -/
theorem clipEdgeRef_frame (a b : Point2) (inRef : ℕ) (h : PolyClip.Heap) :
    (∀ r, r < h.next →
      PolyClip.hread (PolyClip.clipEdgeRef a b inRef h).1 r = PolyClip.hread h r) ∧
    (PolyClip.clipEdgeRef a b inRef h).1.next = h.next + 1 ∧
    (PolyClip.clipEdgeRef a b inRef h).2 = h.next := by
  simp only [PolyClip.clipEdgeRef]
  cases hlast : (PolyClip.hread h inRef).getLast? with
  | none =>
    simp only [hlast, PolyClip.halloc]
    refine ⟨fun r hr => ?_, by trivial, by trivial⟩
    simp [PolyClip.hread, Nat.ne_of_lt hr]
  | some s =>
    simp only [hlast, PolyClip.halloc]
    refine ⟨fun r hr => ?_, ?_, by trivial⟩
    · rw [clipEdgeRefGo_frame a b h.next _ s _ r (Nat.ne_of_lt hr)]
      simp [PolyClip.hread, Nat.ne_of_lt hr]
    · rw [clipEdgeRefGo_next]

/-- Folding heap passes over any edge list preserves every reference that
was allocated before the call, and never shrinks the allocation bound. -/
theorem foldClipRef_frame (l : List (Point2 × Point2)) :
    ∀ (h : PolyClip.Heap) (ref : ℕ),
      (∀ r, r < h.next →
        PolyClip.hread (l.foldl (fun acc e => PolyClip.clipEdgeRef e.1 e.2 acc.2 acc.1)
          (h, ref)).1 r = PolyClip.hread h r) ∧
      h.next ≤ (l.foldl (fun acc e => PolyClip.clipEdgeRef e.1 e.2 acc.2 acc.1)
        (h, ref)).1.next := by
  induction l with
  | nil => exact fun h ref => ⟨fun r _ => rfl, Nat.le_refl _⟩
  | cons e rest ih =>
    intro h ref
    simp only [List.foldl_cons]
    obtain ⟨hpres, hnext, _⟩ := clipEdgeRef_frame e.1 e.2 ref h
    obtain ⟨ihpres, ihnext⟩ := ih (PolyClip.clipEdgeRef e.1 e.2 ref h).1
      (PolyClip.clipEdgeRef e.1 e.2 ref h).2
    constructor
    · intro r hr
      rw [ihpres r (by rw [hnext]; exact Nat.lt_succ_of_lt hr), hpres r hr]
    · exact Nat.le_trans (by rw [hnext]; exact Nat.le_succ _) ihnext

/-- C10: `clipPolygon` never mutates its arguments: in the heap model of
the JS arrays, after the call the subject-polygon array and the
clipping-boundary array both hold exactly the vertex sequences they held
before the call (all writes go to output arrays freshly allocated inside
the call). -/
theorem clipPolygonRef_no_mutation (h : PolyClip.Heap) (polygonRef boundaryRef : ℕ)
    (hp : polygonRef < h.next) (hb : boundaryRef < h.next) :
    PolyClip.hread (PolyClip.clipPolygonRef h polygonRef boundaryRef).1 polygonRef =
      PolyClip.hread h polygonRef ∧
    PolyClip.hread (PolyClip.clipPolygonRef h polygonRef boundaryRef).1 boundaryRef =
      PolyClip.hread h boundaryRef := by
  unfold PolyClip.clipPolygonRef
  obtain ⟨hpres, _⟩ :=
    foldClipRef_frame (PolyClip.edges (PolyClip.hread h boundaryRef)) h polygonRef
  exact ⟨hpres polygonRef hp, hpres boundaryRef hb⟩

/-- Witness for C10 at a concrete two-array heap. -/
theorem clipPolygonRef_no_mutation_witness :
    PolyClip.hread (PolyClip.clipPolygonRef
      ⟨fun r => if r = 0 then [⟨1, 2⟩] else if r = 1 then [⟨3, 4⟩, ⟨5, 6⟩] else [], 2⟩
      0 1).1 0 = [⟨1, 2⟩] ∧
    PolyClip.hread (PolyClip.clipPolygonRef
      ⟨fun r => if r = 0 then [⟨1, 2⟩] else if r = 1 then [⟨3, 4⟩, ⟨5, 6⟩] else [], 2⟩
      0 1).1 1 = [⟨3, 4⟩, ⟨5, 6⟩] := by
  obtain ⟨h0, h1⟩ := clipPolygonRef_no_mutation
    ⟨fun r => if r = 0 then [⟨1, 2⟩] else if r = 1 then [⟨3, 4⟩, ⟨5, 6⟩] else [], 2⟩
    0 1 (by decide) (by decide)
  exact ⟨h0.trans rfl, h1.trans rfl⟩

/-- The heap inner loop pushes exactly the vertices the pure inner loop
emits, in order. -/
theorem clipEdgeRefGo_read_out (a b : Point2) (outRef : ℕ) (l : List Point2) :
    ∀ (s : Point2) (h : PolyClip.Heap),
      PolyClip.hread (PolyClip.clipEdgeRefGo a b outRef s l h) outRef =
        PolyClip.hread h outRef ++ PolyClip.clipEdgeGo a b s l := by
  induction l with
  | nil => intro s h; simp [PolyClip.clipEdgeRefGo, PolyClip.clipEdgeGo]
  | cons e rest ih =>
    intro s h
    simp only [PolyClip.clipEdgeRefGo, PolyClip.clipEdgeGo]
    rw [ih]
    cases hE : PolyClip.inside e a b <;> cases hS : PolyClip.inside s a b <;>
      simp [hE, hS, hread_hpush_self, List.append_assoc]

/-- One heap pass leaves in its output array exactly the pure pass's
output polygon. -/
theorem clipEdgeRef_read (a b : Point2) (inRef : ℕ) (h : PolyClip.Heap) :
    PolyClip.hread (PolyClip.clipEdgeRef a b inRef h).1 (PolyClip.clipEdgeRef a b inRef h).2 =
      PolyClip.clipEdge a b (PolyClip.hread h inRef) := by
  simp only [PolyClip.clipEdgeRef, PolyClip.clipEdge]
  cases hlast : (PolyClip.hread h inRef).getLast? with
  | none => simp [hlast, PolyClip.halloc, PolyClip.hread]
  | some s =>
    simp only [hlast, PolyClip.halloc]
    rw [clipEdgeRefGo_read_out]
    simp [PolyClip.hread]

/-- Folding heap passes computes, in the final output array, exactly the
pure fold of passes. -/
theorem foldClipRef_read (l : List (Point2 × Point2)) :
    ∀ (h : PolyClip.Heap) (ref : ℕ),
      PolyClip.hread (l.foldl (fun acc e => PolyClip.clipEdgeRef e.1 e.2 acc.2 acc.1)
          (h, ref)).1
        (l.foldl (fun acc e => PolyClip.clipEdgeRef e.1 e.2 acc.2 acc.1) (h, ref)).2 =
      l.foldl (fun out e => PolyClip.clipEdge e.1 e.2 out) (PolyClip.hread h ref) := by
  induction l with
  | nil => intro h ref; rfl
  | cons e rest ih =>
    intro h ref
    simp only [List.foldl_cons]
    rw [ih, clipEdgeRef_read]

/-- The heap-model `clipPolygon` computes the pure `clipPolygon`: reading
the returned reference after the call yields exactly the clipped polygon
of the value-level transcription, so the two embeddings agree. -/
theorem clipPolygonRef_read (h : PolyClip.Heap) (polygonRef boundaryRef : ℕ) :
    PolyClip.hread (PolyClip.clipPolygonRef h polygonRef boundaryRef).1
        (PolyClip.clipPolygonRef h polygonRef boundaryRef).2 =
      PolyClip.clipPolygon (PolyClip.hread h polygonRef) (PolyClip.hread h boundaryRef) := by
  unfold PolyClip.clipPolygonRef PolyClip.clipPolygon
  exact foldClipRef_read _ _ _

/-- The loop of `WeightedVoronoi.compute` executes at most its fuel, runs
exactly up to the first iteration whose error beats the threshold, and
returns the diagram of its last executed iteration. -/
theorem computeLoop_spec (step : List (List Point2) → List (List Point2) × ℚ)
    (ethreshold : ℚ) :
    ∀ (n : ℕ) (d : List (List Point2)),
      (WV.computeLoop step ethreshold n d).2 ≤ n ∧
      (WV.computeLoop step ethreshold n d).1 =
        WV.diagSeq step d (WV.computeLoop step ethreshold n d).2 ∧
      (∀ k, k + 1 < (WV.computeLoop step ethreshold n d).2 →
        ¬ WV.errAt step d k < ethreshold) ∧
      ((WV.computeLoop step ethreshold n d).2 < n →
        0 < (WV.computeLoop step ethreshold n d).2 ∧
        WV.errAt step d ((WV.computeLoop step ethreshold n d).2 - 1) < ethreshold) := by
  intro n
  induction n with
  | zero =>
    intro d
    exact ⟨Nat.le_refl 0, rfl, fun k hk => absurd hk (Nat.not_lt_zero _),
      fun hlt => absurd hlt (Nat.not_lt_zero _)⟩
  | succ m ih =>
    intro d
    by_cases hr : (step d).2 < ethreshold
    · have hloop : WV.computeLoop step ethreshold (m + 1) d = ((step d).1, 1) := by
        simp only [WV.computeLoop, if_pos hr]
      rw [hloop]
      refine ⟨Nat.succ_le_succ (Nat.zero_le m), rfl, fun k hk => ?_, fun _ => ?_⟩
      · exact absurd (Nat.lt_of_succ_lt_succ hk) (Nat.not_lt_zero k)
      · exact ⟨Nat.one_pos, hr⟩
    · have hloop : WV.computeLoop step ethreshold (m + 1) d =
          ((WV.computeLoop step ethreshold m (step d).1).1,
            (WV.computeLoop step ethreshold m (step d).1).2 + 1) := by
        simp only [WV.computeLoop, if_neg hr]
      have hshift : ∀ j, WV.diagSeq step (step d).1 j = WV.diagSeq step d (j + 1) := by
        intro j
        induction j with
        | zero => rfl
        | succ i ihj => simp only [WV.diagSeq, ihj]
      have hshiftE : ∀ j, WV.errAt step (step d).1 j = WV.errAt step d (j + 1) := by
        intro j
        simp only [WV.errAt, hshift]
      obtain ⟨ihle, ihdiag, ihpre, ihstop⟩ := ih (step d).1
      rw [hloop]
      refine ⟨Nat.succ_le_succ ihle, ?_, fun k hk => ?_, fun hlt => ?_⟩
      · rw [ihdiag, hshift]
      · cases k with
        | zero => exact hr
        | succ j => exact (hshiftE j) ▸ ihpre j (Nat.lt_of_succ_lt_succ hk)
      · obtain ⟨hpos, herr⟩ := ihstop (Nat.lt_of_succ_lt_succ hlt)
        refine ⟨Nat.succ_pos _, ?_⟩
        have hm1 : (WV.computeLoop step ethreshold m (step d).1).2 + 1 - 1 =
            ((WV.computeLoop step ethreshold m (step d).1).2 - 1) + 1 := by
          omega
        rw [hm1, ← hshiftE]
        exact herr

/-- C8: `WeightedVoronoi.compute` always terminates: it executes the
relaxation body at most `IMAX = 50` times, never continues past an
iteration whose total absolute area error is below `ethreshold`, and when
it stops before the cap it is precisely because the last executed
iteration's error dropped below `ethreshold`; the result is the diagram
of the last executed iteration. -/
theorem wv_compute_terminates (step : List (List Point2) → List (List Point2) × ℚ)
    (ethreshold : ℚ) (init : List (List Point2)) :
    WV.IMAX = 50 ∧
    (WV.compute step ethreshold init).2 ≤ WV.IMAX ∧
    (WV.compute step ethreshold init).1 =
      WV.diagSeq step init (WV.compute step ethreshold init).2 ∧
    (∀ k, k + 1 < (WV.compute step ethreshold init).2 →
      ¬ WV.errAt step init k < ethreshold) ∧
    ((WV.compute step ethreshold init).2 < WV.IMAX →
      0 < (WV.compute step ethreshold init).2 ∧
      WV.errAt step init ((WV.compute step ethreshold init).2 - 1) < ethreshold) := by
  obtain ⟨h1, h2, h3, h4⟩ := computeLoop_spec step ethreshold WV.IMAX init
  exact ⟨rfl, h1, h2, h3, h4⟩

/-- Witness for C8 with a concrete step function whose first iteration
already has zero error: the loop runs exactly once, within the cap. -/
theorem wv_compute_terminates_witness :
    (WV.compute (fun d => (d, 0)) 1 []).2 ≤ WV.IMAX :=
  (wv_compute_terminates (fun d => (d, 0)) 1 []).2.1
